import Mathlib

/-!
Verification development for ustl's `memlink` (src/memlink.cc): a mutable,
non-owning view over a contiguous memory block.  Memory is modelled as a
total function from byte addresses to byte values; pointers are `Option Nat`
(`none` is the C `NULL`).  The virtual `elementSize()` is modelled as a
field `elemSize` that no operation ever changes (in C++ it is determined by
the object's dynamic type).  Fallible operations (those that would
dereference a null pointer) return `Option`.
-/

namespace Ustl

/-- A byte-addressed memory: byte value at each address. -/
abbrev Mem := Nat → Nat

/-- Write a single byte `b` at address `dst`. -/
def writeB (mem : Mem) (dst : Nat) (b : Nat) : Mem :=
  fun x => if x = dst then b else mem x

/-- Write a list of bytes starting at address `dst` (ascending addresses). -/
def writeBytes (mem : Mem) (dst : Nat) : List Nat → Mem
  | [] => mem
  | b :: bs => writeBytes (writeB mem dst b) (dst + 1) bs

/-- `memset(dst, b, k)`: the `k` bytes at `[dst, dst+k)` all become `b`. -/
def memsetMem (mem : Mem) (dst : Nat) (b : Nat) (k : Nat) : Mem :=
  fun x => if dst ≤ x ∧ x < dst + k then b else mem x

/-- `memcpy(dst, src, n)` for non-overlapping regions: bytes `[dst, dst+n)`
    take the values the bytes `[src, src+n)` had in `mem`. -/
def memcpyMem (mem : Mem) (dst : Nat) (src : Nat) (n : Nat) : Mem :=
  fun x => if dst ≤ x ∧ x < dst + n then mem (src + (x - dst)) else mem x

/-- Read `n` bytes starting at pointer `p`; dereferencing `none` (NULL)
    fails, except that reading zero bytes never touches the pointer. -/
def readBytesM (mem : Mem) (p : Option Nat) (n : Nat) : Option (List Nat) :=
  if n = 0 then some []
  else match p with
    | none => none
    | some a => some ((List.range n).map (fun i => mem (a + i)))

/-- `ustl::rotate (first, middle, last)` acting on memory: the bytes of
    `[middle, last)` move to `first` and the bytes of `[first, middle)`
    follow them; addresses outside `[first, last)` are untouched. -/
def rotateMem (mem : Mem) (first middle last : Nat) : Mem :=
  fun x =>
    if first ≤ x ∧ x < last then
      if x - first < last - middle then mem (middle + (x - first))
      else mem (first + (x - first - (last - middle)))
    else mem x

/-- The base read-only view `cmemlink`: observed pointer and byte size. -/
structure cmemlink where
  m_CData : Option Nat
  m_Size : Nat
deriving DecidableEq

/-- `memlink`: the base descriptor plus the mutable data pointer `m_Data`,
    and the (type-level, never mutated) element size. -/
structure memlink where
  base : cmemlink
  m_Data : Option Nat
  elemSize : Nat
deriving DecidableEq

namespace memlink

/-- `memlink::memlink (void)`: both links NULL, size 0. -/
def mkNull (es : Nat) : memlink := ⟨⟨none, 0⟩, none, es⟩

/-- `memlink::memlink (const void* p, size_t n)`: const link `(p, n)`,
    non-const link NULL. -/
def mkConst (p : Option Nat) (n es : Nat) : memlink := ⟨⟨p, n⟩, none, es⟩

/-- `memlink::memlink (void* p, size_t n)`: both links point to `(p, n)`. -/
def mkMut (p : Option Nat) (n es : Nat) : memlink := ⟨⟨p, n⟩, p, es⟩

/-- `memlink::memlink (const cmemlink& l)`: copies the descriptor,
    `m_Data` is NULL. -/
def ofC (l : cmemlink) (es : Nat) : memlink := ⟨l, none, es⟩

/-- `memlink::memlink (const memlink& l)`: copies descriptor and `m_Data`. -/
def ofM (l : memlink) : memlink := ⟨l.base, l.m_Data, l.elemSize⟩

/-- `memlink::operator= (const cmemlink& l)`: descriptor becomes `l`,
    `m_Data` becomes NULL. -/
def assignC (v : memlink) (l : cmemlink) : memlink := ⟨l, none, v.elemSize⟩

/-- `memlink::operator= (const memlink& l)`: descriptor and `m_Data`
    copied from `l`. -/
def assignM (v : memlink) (l : memlink) : memlink := ⟨l.base, l.m_Data, v.elemSize⟩

/-- `memlink::link (void* p, size_t n)`: both links retargeted to `(p, n)`. -/
def link (v : memlink) (p : Option Nat) (n : Nat) : memlink := ⟨⟨p, n⟩, p, v.elemSize⟩

/-- `memlink::unlink (void)`: resets both links to NULL, size 0. -/
def unlink (v : memlink) : memlink := ⟨⟨none, 0⟩, none, v.elemSize⟩

/-- `memlink::swap (memlink& l)`: exchanges descriptor and `m_Data` between
    the two views; the (type-level) element sizes stay with their objects. -/
def swap (v l : memlink) : memlink × memlink :=
  (⟨l.base, l.m_Data, v.elemSize⟩, ⟨v.base, v.m_Data, l.elemSize⟩)

/-- The address of `begin()` on the mutable view (NULL reads as address 0,
    only used inside assertion predicates). -/
def beginAddr (v : memlink) : Nat := v.m_Data.getD 0

/-- The assertions of `memlink::copy`, line for line:
    `m_Data || !n`, `p || !n`, `start >= begin() && start + n <= end()`,
    `n % elementSize() == 0`.  None of them mentions anything else. -/
def copyAsserts (v : memlink) (start : Nat) (p : Option Nat) (n : Nat) : Prop :=
  (v.m_Data ≠ none ∨ n = 0) ∧ (p ≠ none ∨ n = 0) ∧
  (v.beginAddr ≤ start ∧ start + n ≤ v.beginAddr + v.base.m_Size) ∧
  n % v.elemSize = 0

instance (v : memlink) (start : Nat) (p : Option Nat) (n : Nat) :
    Decidable (copyAsserts v start p n) := by
  unfold copyAsserts; infer_instance

/-- `memlink::copy (iterator start, const void* p, size_t n)`:
    `if (p && n && p != m_Data) memcpy (start, p, n);`
    The guard compares `p` against the member `m_Data`, not against the
    destination iterator `start`. -/
def copy (v : memlink) (mem : Mem) (start : Nat) (p : Option Nat) (n : Nat) :
    memlink × Mem :=
  if p ≠ none ∧ 0 < n ∧ p ≠ v.m_Data then (v, memcpyMem mem start (p.getD 0) n)
  else (v, mem)

/-- The first assertion of `memlink::fill`: `assert (m_Data || !elCount || !elSize)`.
    It passes whenever `m_Data` is non-null, or `elCount == 0`, or `elSize == 0`. -/
def fillAssert1 (v : memlink) (elSize elCount : Nat) : Prop :=
  v.m_Data ≠ none ∨ elCount = 0 ∨ elSize = 0

instance (v : memlink) (elSize elCount : Nat) :
    Decidable (fillAssert1 v elSize elCount) := by
  unfold fillAssert1; infer_instance

/-- The general-case loop of `memlink::fill`:
    `while (elCount--) { memcpy (start, p, elSize); start += elSize; }`.
    Each iteration reads the `elSize`-byte pattern through `p` from the
    current memory; dereferencing NULL fails. -/
def fillLoop (mem : Mem) (start : Nat) (p : Option Nat) (elSize : Nat) :
    Nat → Option Mem
  | 0 => some mem
  | elCount + 1 =>
    (readBytesM mem p elSize).bind (fun pat =>
      fillLoop (writeBytes mem start pat) (start + elSize) p elSize elCount)

/-- `memlink::fill (iterator start, const void* p, size_t elSize, size_t elCount)`.
    The `elSize == 1` special case is
    `memset (start, *reinterpret_cast<const u_char*>(p), elCount)`: it
    dereferences `p` unconditionally, even when `elCount` is zero. -/
def fill (v : memlink) (mem : Mem) (start : Nat) (p : Option Nat)
    (elSize elCount : Nat) : Option (memlink × Mem) :=
  if elSize = 1 then
    match p with
    | none => none
    | some a => some (v, memsetMem mem start (mem a) elCount)
  else
    (fillLoop mem start p elSize elCount).map (fun m => (v, m))

/-- `memlink::insert (iterator start, size_t n)`:
    `rotate (start, end() - n, end())` over the bytes, where
    `end() = m_Data + size()`.  With a NULL `m_Data` and `n > 0` the call
    would rotate through a null pointer (the asserts `m_Data || !n` and
    `begin() || !n` fail), modelled as `none`; with `n == 0` the rotation
    has `middle = last` and moves nothing. -/
def insert (v : memlink) (mem : Mem) (start n : Nat) : Option (memlink × Mem) :=
  if v.m_Data = none ∧ n ≠ 0 then none
  else
    some (v, rotateMem mem start (v.beginAddr + v.base.m_Size - n)
               (v.beginAddr + v.base.m_Size))

/-- `memlink::erase (iterator start, size_t n)`:
    `rotate (start, start + n, end())` over the bytes. -/
def erase (v : memlink) (mem : Mem) (start n : Nat) : Option (memlink × Mem) :=
  if v.m_Data = none ∧ n ≠ 0 then none
  else
    some (v, rotateMem mem start (start + n) (v.beginAddr + v.base.m_Size))

end memlink

/-- Round `p` up to the next multiple of `g` (alignment grain). -/
def alignUp (p g : Nat) : Nat :=
  if g = 0 then p else p + (g - p % g) % g

/-- Modelled from the spec: the stream capability consumed by `read`
    (§6: "read an unsigned integer, read `n` raw bytes into a buffer, skip
    `n` bytes, align cursor").  A cursor position plus the immutable byte
    sequence of the stream. -/
structure istream where
  pos : Nat
  buf : Nat → Nat

namespace istream

/-- Modelled from the spec: "read `n` raw bytes into a buffer" — copies the
    next `k` stream bytes to the destination pointer and advances the
    cursor; a NULL destination is only legal when `k = 0`. -/
def readData (s : istream) (mem : Mem) (dst : Option Nat) (k : Nat) :
    Option (Mem × istream) :=
  if k ≠ 0 ∧ dst = none then none
  else
    some (fun x => if dst.getD 0 ≤ x ∧ x < dst.getD 0 + k
                   then s.buf (s.pos + (x - dst.getD 0)) else mem x,
          ⟨s.pos + k, s.buf⟩)

/-- Modelled from the spec: "skip `n` bytes" — advances the cursor. -/
def skip (s : istream) (k : Nat) : istream := ⟨s.pos + k, s.buf⟩

/-- Modelled from the spec: "align cursor to its required boundary" —
    rounds the cursor up to the next multiple of the grain `g`. -/
def align (s : istream) (g : Nat) : istream := ⟨alignUp s.pos g, s.buf⟩

end istream

/-- `memlink::read (istream& is)` after `is >> n` has produced the
    serialized length `n` (the stream cursor stands at the first raw byte):
    `btr = min (n, size()); is.read (data(), btr); resize (btr);
    is.skip (n - btr); is.align ();` with alignment grain `g`. -/
def memlink.read (v : memlink) (mem : Mem) (s : istream) (n g : Nat) :
    Option (memlink × Mem × istream) :=
  (istream.readData s mem v.m_Data (min n v.base.m_Size)).map (fun r =>
    (⟨⟨v.base.m_CData, min n v.base.m_Size⟩, v.m_Data, v.elemSize⟩,
     r.1, (r.2.skip (n - min n v.base.m_Size)).align g))

/-- Invariant I1: the mutable pointer is NULL or aliases the base view's
    observed address. -/
def I1 (v : memlink) : Prop := v.m_Data = none ∨ v.m_Data = v.base.m_CData

instance (v : memlink) : Decidable (I1 v) := by
  unfold I1; infer_instance

/-- Identity memory: byte at address `x` is `x` (a convenient concrete state). -/
def memId : Mem := fun x => x

/-- A concrete view built from an immutable source: observes 8 bytes at
    address 0, `m_Data` NULL, element size 1. -/
def vNull8 : memlink := ⟨⟨some 0, 8⟩, none, 1⟩

/-- A concrete mutable view: 8 bytes at address 0, element size 1. -/
def vMut8 : memlink := ⟨⟨some 0, 8⟩, some 0, 1⟩

/-- A concrete mutable view: 12 bytes at address 0, element size 1. -/
def vMut12 : memlink := ⟨⟨some 0, 12⟩, some 0, 1⟩

/-- A concrete stream: cursor at 0, stream byte `i` is `i + 100`. -/
def s0 : istream := ⟨0, fun x => x + 100⟩

lemma copy_fst (v : memlink) (mem : Mem) (start : Nat) (p : Option Nat) (n : Nat) :
    (memlink.copy v mem start p n).1 = v := by
  unfold memlink.copy
  split <;> rfl

lemma fill_fst (v : memlink) (mem : Mem) (start : Nat) (p : Option Nat)
    (elSize elCount : Nat) (r : memlink × Mem)
    (h : memlink.fill v mem start p elSize elCount = some r) : r.1 = v := by
  unfold memlink.fill at h
  split at h
  · cases p with
    | none => exact absurd h (by simp)
    | some a => cases h; rfl
  · rcases Option.map_eq_some'.mp h with ⟨m, _, hm⟩
    cases hm.symm
    rfl

lemma insert_fst (v : memlink) (mem : Mem) (start n : Nat) (r : memlink × Mem)
    (h : memlink.insert v mem start n = some r) : r.1 = v := by
  unfold memlink.insert at h
  split at h
  · exact absurd h (by simp)
  · cases h; rfl

lemma erase_fst (v : memlink) (mem : Mem) (start n : Nat) (r : memlink × Mem)
    (h : memlink.erase v mem start n = some r) : r.1 = v := by
  unfold memlink.erase at h
  split at h
  · exact absurd h (by simp)
  · cases h; rfl

/-- C7: assignment and construction from an immutable source replace the
    descriptor entirely and strip mutation capability: after `v = l`, after
    `memlink(const cmemlink&)`, or after `memlink(const void*, size_t)`, the
    base descriptor equals the source descriptor and `m_Data` is NULL, for
    every prior state of `v` (in particular one with a non-null `m_Data`). -/
theorem assign_from_immutable_strips_mutation (v : memlink) (l : cmemlink)
    (p : Option Nat) (n es : Nat) :
    (memlink.assignC v l).base = l ∧ (memlink.assignC v l).m_Data = none ∧
    (memlink.ofC l es).base = l ∧ (memlink.ofC l es).m_Data = none ∧
    (memlink.mkConst p n es).base = ⟨p, n⟩ ∧ (memlink.mkConst p n es).m_Data = none :=
  ⟨rfl, rfl, rfl, rfl, rfl, rfl⟩

/-- C9: the `elSize == 1` branch of `fill` dereferences the pattern pointer
    unconditionally — `memset (start, *p, elCount)` reads one byte through
    `p` before writing anything, and no assertion of `fill` mentions `p` —
    so a NULL pattern pointer is a null dereference for every `elCount`,
    including `elCount = 0` where zero bytes are to be written. -/
theorem fill_byte_pattern_null_deref (v : memlink) (mem : Mem) (start k : Nat) :
    memlink.fill v mem start none 1 k = none := rfl

/-- C5 counterexample: a call of `fill` with NULL `m_Data`,
    `patternElementSize = 1 > 0` and `repeatCount = 0` passes the assertion
    `assert (m_Data || !elCount || !elSize)`, although the claim says every
    call with NULL `m_Data` and `repeatCount > 0` or `patternElementSize > 0`
    fails it. -/
theorem fill_assert_passes_zero_count :
    ((0 : Nat) < 1 ∨ (0 : Nat) < 0) ∧ vNull8.m_Data = none ∧
    memlink.fillAssert1 vNull8 1 0 := by
  exact ⟨Or.inl (by decide), rfl, Or.inr (Or.inl rfl)⟩

/-- C5 (amended): the fill assertion `assert (m_Data || !elCount || !elSize)`
    requires a non-null `m_Data` exactly when `repeatCount > 0` AND
    `patternElementSize > 0`: with NULL `m_Data` the assertion fails iff
    both counts are positive. -/
theorem fill_assert_null_data (v : memlink) (elSize elCount : Nat)
    (h : v.m_Data = none) :
    ¬ memlink.fillAssert1 v elSize elCount ↔ (0 < elCount ∧ 0 < elSize) := by
  unfold memlink.fillAssert1
  rw [h]
  simp
  omega

/-- Witness for C5's amended theorem at `elSize = 2`, `elCount = 3`. -/
theorem fill_assert_null_data_witness :
    ¬ memlink.fillAssert1 vNull8 2 3 ↔ ((0 : Nat) < 3 ∧ (0 : Nat) < 2) :=
  fill_assert_null_data vNull8 2 3 rfl

/-- C10: `copy` with `byteCount = 0` is a total no-op: for every in-bounds
    destination iterator and every source pointer (NULL included), all four
    assertions pass and neither the memory nor the view changes. -/
theorem copy_zero_noop (v : memlink) (mem : Mem) (start : Nat) (p : Option Nat)
    (h1 : v.beginAddr ≤ start) (h2 : start ≤ v.beginAddr + v.base.m_Size) :
    memlink.copyAsserts v start p 0 ∧ memlink.copy v mem start p 0 = (v, mem) := by
  constructor
  · exact ⟨Or.inr rfl, Or.inr rfl, ⟨h1, by omega⟩, Nat.zero_mod _⟩
  · unfold memlink.copy
    rw [if_neg]
    rintro ⟨_, h, _⟩
    omega

/-- Witness for C10 at a NULL source pointer and NULL `m_Data`. -/
theorem copy_zero_noop_witness :
    memlink.copyAsserts vNull8 4 none 0 ∧
    memlink.copy vNull8 memId 4 none 0 = (vNull8, memId) :=
  copy_zero_noop vNull8 memId 4 none (by decide) (by decide)

/-- C4 counterexample: `vMut8` views bytes `[0, 8)` with `m_Data = 0`;
    `copy (start = 4, p = 0, n = 4)` has a non-null source, `n > 0`, and a
    source address (0) different from the destination address (4), yet the
    guard `p != m_Data` makes the call write nothing: the destination byte
    keeps its old value 4 instead of the source byte 0. -/
theorem copy_guard_counterexample :
    ((some 0 : Option Nat) ≠ none) ∧ (0 : Nat) < 4 ∧ (0 : Nat) ≠ 4 ∧
    memlink.copyAsserts vMut8 4 (some 0) 4 ∧
    (memlink.copy vMut8 memId 4 (some 0) 4).2 4 = 4 ∧ memId 0 ≠ 4 := by
  decide

/-- C4 (amended): the bytes at `p` are copied to the destination range iff
    `p` is non-null, `n > 0`, and `p` differs from the view's mutable data
    pointer `m_Data`; when `p` is NULL, `n = 0`, or `p` equals `m_Data`
    (self-copy) the call writes nothing and the viewed bytes are unchanged. -/
theorem copy_writes_iff (v : memlink) (mem : Mem) (start n : Nat) (p : Option Nat)
    (hb : v.beginAddr ≤ start) (he : start + n ≤ v.beginAddr + v.base.m_Size)
    (hmod : n % v.elemSize = 0) :
    ((p ≠ none ∧ 0 < n ∧ p ≠ v.m_Data) →
       ∀ x, (start ≤ x ∧ x < start + n →
                (memlink.copy v mem start p n).2 x = mem (p.getD 0 + (x - start))) ∧
            (x < start ∨ start + n ≤ x →
                (memlink.copy v mem start p n).2 x = mem x)) ∧
    ((p = none ∨ n = 0 ∨ p = v.m_Data) →
       (memlink.copy v mem start p n).2 = mem) ∧
    (memlink.copy v mem start p n).1 = v := by
  refine ⟨?_, ?_, copy_fst v mem start p n⟩
  · rintro ⟨hp, hn, hne⟩ x
    unfold memlink.copy
    rw [if_pos ⟨hp, hn, hne⟩]
    unfold memcpyMem
    constructor
    · rintro ⟨hx1, hx2⟩
      dsimp only
      rw [if_pos ⟨hx1, hx2⟩]
    · intro hx
      dsimp only
      rw [if_neg (show ¬(start ≤ x ∧ x < start + n) by omega)]
  · intro h
    unfold memlink.copy
    rw [if_neg]
    rintro ⟨h1, h2, h3⟩
    rcases h with h | h | h
    · exact h1 h
    · omega
    · exact h3 h

/-- Witness for C4's amended theorem: self-copy on `vMut8` leaves memory
    unchanged. -/
theorem copy_writes_iff_witness :
    (memlink.copy vMut8 memId 4 (some 0) 4).2 = memId :=
  (copy_writes_iff vMut8 memId 4 4 (some 0) (by decide) (by decide)
    (by decide)).2.1 (Or.inr (Or.inr rfl))

lemma memset_writeB (mem : Mem) (start b k : Nat) :
    memsetMem (writeB mem start b) (start + 1) b k = memsetMem mem start b (k + 1) := by
  funext x
  unfold memsetMem writeB
  split_ifs <;> first | rfl | (exfalso; omega)

lemma fillLoop_one (a : Nat) :
    ∀ (k : Nat) (mem : Mem) (start : Nat),
      memlink.fillLoop mem start (some a) 1 k = some (memsetMem mem start (mem a) k)
  | 0, mem, start => by
    unfold memlink.fillLoop
    congr 1
    funext x
    unfold memsetMem
    rw [if_neg (by omega)]
  | k + 1, mem, start => by
    have hr : readBytesM mem (some a) 1 = some [mem a] := by
      unfold readBytesM
      simp [show List.range 1 = [0] from rfl]
    unfold memlink.fillLoop
    rw [hr, Option.some_bind]
    show memlink.fillLoop (writeBytes mem start [mem a]) (start + 1) (some a) 1 k = _
    simp only [writeBytes]
    rw [fillLoop_one a k (writeB mem start (mem a)) (start + 1)]
    rw [show writeB mem start (mem a) a = mem a from by unfold writeB; split <;> rfl]
    rw [memset_writeB]

/-- C6: the `patternElementSize == 1` special case of `fill` is
    result-equivalent to the general loop: for every call with a non-null
    pattern pointer, `fill (start, p, 1, k)` returns exactly what the
    general per-element loop would, namely `k` consecutive bytes at
    `[start, start + k)` each equal to the pattern byte `*p`, with no byte
    outside that range changed. -/
theorem fill_one_equiv_general (v : memlink) (mem : Mem) (start a k : Nat) :
    memlink.fill v mem start (some a) 1 k =
      (memlink.fillLoop mem start (some a) 1 k).map (fun m => (v, m)) ∧
    memlink.fill v mem start (some a) 1 k = some (v, memsetMem mem start (mem a) k) ∧
    (∀ x, start ≤ x → x < start + k → memsetMem mem start (mem a) k x = mem a) ∧
    (∀ x, x < start ∨ start + k ≤ x → memsetMem mem start (mem a) k x = mem x) := by
  have h1 : memlink.fill v mem start (some a) 1 k =
      some (v, memsetMem mem start (mem a) k) := rfl
  refine ⟨?_, h1, ?_, ?_⟩
  · rw [h1, fillLoop_one a k mem start, Option.map_some']
  · intro x hx1 hx2
    unfold memsetMem
    rw [if_pos ⟨hx1, hx2⟩]
  · intro x hx
    unfold memsetMem
    rw [if_neg (by omega)]

/-- C2: for a view of element size 1 and a valid `insert (start, n)`
    (start in `[begin, end)`, `start + n ≤ end`), the bytes before `start`
    are unchanged, the bytes that were at `[start, end - n)` move to
    `[start + n, end)`, bytes at and after `end` are unchanged, and the
    view itself (pointer, size, element size) is returned unmodified; the
    gap `[start, start + n)` is left unspecified. -/
theorem insert_shifts (v : memlink) (mem : Mem) (d start n : Nat)
    (hd : v.m_Data = some d) (hes : v.elemSize = 1)
    (h1 : d ≤ start) (h2 : start < d + v.base.m_Size)
    (h3 : start + n ≤ d + v.base.m_Size) :
    ∃ m', memlink.insert v mem start n = some (v, m') ∧
      (∀ x, x < start → m' x = mem x) ∧
      (∀ x, start ≤ x → x + n < d + v.base.m_Size → m' (x + n) = mem x) ∧
      (∀ x, d + v.base.m_Size ≤ x → m' x = mem x) := by
  have hba : v.beginAddr = d := by rw [memlink.beginAddr, hd]; rfl
  refine ⟨rotateMem mem start (d + v.base.m_Size - n) (d + v.base.m_Size),
          ?_, ?_, ?_, ?_⟩
  · unfold memlink.insert
    rw [if_neg (by simp [hd]), hba]
  · intro x hx
    unfold rotateMem
    rw [if_neg (by omega)]
  · intro x hx1 hx2
    unfold rotateMem
    rw [if_pos ⟨by omega, by omega⟩, if_neg (by omega)]
    congr 1
    omega
  · intro x hx
    unfold rotateMem
    rw [if_neg (by omega)]

/-- Witness for C2 on the concrete 8-byte view `vMut8` with
    `start = 4`, `n = 4`. -/
theorem insert_shifts_witness :
    ∃ m', memlink.insert vMut8 memId 4 4 = some (vMut8, m') ∧
      (∀ x, x < 4 → m' x = memId x) ∧
      (∀ x, 4 ≤ x → x + 4 < 0 + vMut8.base.m_Size → m' (x + 4) = memId x) ∧
      (∀ x, 0 + vMut8.base.m_Size ≤ x → m' x = memId x) :=
  insert_shifts vMut8 memId 0 4 4 rfl rfl (by decide) (by decide) (by decide)

/-- C3: `erase` is the exact inverse of `insert`: for every valid
    `(start, n)`, performing `insert (start, n)` and then `erase (start, n)`
    restores every byte to its value before the insert (in particular the
    bytes in `[start, end - n)` regain their original values and the bytes
    `erase` rotates to the tail are exactly those `insert` had placed in
    the gap). -/
theorem insert_erase_inverse (v : memlink) (mem : Mem) (d start n : Nat)
    (hd : v.m_Data = some d)
    (h1 : d ≤ start) (h2 : start < d + v.base.m_Size)
    (h3 : start + n ≤ d + v.base.m_Size)
    (hn : n % v.elemSize = 0) (hs : (start - d) % v.elemSize = 0) :
    ∃ m1, memlink.insert v mem start n = some (v, m1) ∧
      memlink.erase v m1 start n = some (v, mem) := by
  have hba : v.beginAddr = d := by rw [memlink.beginAddr, hd]; rfl
  refine ⟨rotateMem mem start (d + v.base.m_Size - n) (d + v.base.m_Size), ?_, ?_⟩
  · unfold memlink.insert
    rw [if_neg (by simp [hd]), hba]
  · unfold memlink.erase
    rw [if_neg (by simp [hd]), hba]
    have hrot : rotateMem (rotateMem mem start (d + v.base.m_Size - n)
        (d + v.base.m_Size)) start (start + n) (d + v.base.m_Size) = mem := by
      funext x
      simp only [rotateMem]
      split_ifs <;> first | rfl | (congr 1; omega) | (exfalso; omega)
    rw [hrot]

/-- Witness for C3 on the concrete 12-byte view `vMut12` with
    `start = 4`, `n = 4`. -/
theorem insert_erase_inverse_witness :
    ∃ m1, memlink.insert vMut12 memId 4 4 = some (vMut12, m1) ∧
      memlink.erase vMut12 m1 4 4 = some (vMut12, memId) :=
  insert_erase_inverse vMut12 memId 0 4 4 rfl (by decide) (by decide)
    (by decide) (by decide) (by decide)

/-- C1: after the serialized length `n` has been read (a multiple of the
    element size), `read` computes `btr = min (n, size())`, copies exactly
    `btr` bytes from the stream into the view's storage at its data
    pointer, shrinks the view's size to `btr`, and leaves the stream cursor
    at `alignUp (pos + n)`: the `n - btr` excess bytes are skipped and the
    cursor is aligned, so the stream is advanced past the full serialized
    length even when it exceeds the view's size. -/
theorem read_truncates (v : memlink) (mem : Mem) (s : istream) (n g d : Nat)
    (hd : v.m_Data = some d) (hmod : n % v.elemSize = 0) :
    ∃ mem' pos',
      memlink.read v mem s n g =
        some (⟨⟨v.base.m_CData, min n v.base.m_Size⟩, v.m_Data, v.elemSize⟩,
              mem', ⟨pos', s.buf⟩) ∧
      (∀ x, d ≤ x → x < d + min n v.base.m_Size →
         mem' x = s.buf (s.pos + (x - d))) ∧
      (∀ x, x < d ∨ d + min n v.base.m_Size ≤ x → mem' x = mem x) ∧
      pos' = alignUp (s.pos + n) g := by
  have hk : min n v.base.m_Size ≤ n := Nat.min_le_left _ _
  refine ⟨fun x => if d ≤ x ∧ x < d + min n v.base.m_Size
                   then s.buf (s.pos + (x - d)) else mem x,
          alignUp (s.pos + n) g, ?_, ?_, ?_, rfl⟩
  · unfold memlink.read istream.readData
    rw [if_neg (by simp [hd]), Option.map_some']
    unfold istream.skip istream.align
    simp only [hd, Option.getD_some]
    have harg : s.pos + min n v.base.m_Size + (n - min n v.base.m_Size) =
        s.pos + n := by omega
    rw [harg]
  · intro x hx1 hx2
    dsimp only
    rw [if_pos ⟨hx1, hx2⟩]
  · intro x hx
    dsimp only
    rw [if_neg (by omega)]

/-- Witness for C1: `vMut8` (8 bytes at address 0) reading a serialized
    length of 12 from the concrete stream `s0` with alignment grain 4. -/
theorem read_truncates_witness :
    ∃ mem' pos',
      memlink.read vMut8 memId s0 12 4 =
        some (⟨⟨vMut8.base.m_CData, min 12 vMut8.base.m_Size⟩,
               vMut8.m_Data, vMut8.elemSize⟩, mem', ⟨pos', s0.buf⟩) ∧
      (∀ x, 0 ≤ x → x < 0 + min 12 vMut8.base.m_Size →
         mem' x = s0.buf (s0.pos + (x - 0))) ∧
      (∀ x, x < 0 ∨ 0 + min 12 vMut8.base.m_Size ≤ x → mem' x = memId x) ∧
      pos' = alignUp (s0.pos + 12) 4 :=
  read_truncates vMut8 memId s0 12 4 0 rfl (by decide)

/-- C8: invariant I1 (`m_Data` is NULL or equals the base view's observed
    address) holds after every operation: all five constructors, both
    assignments, `link`, `unlink`, both sides of `swap`, and the views
    produced by `read`; `copy`, `fill`, `insert` and `erase` return the
    view unmodified, so they preserve it as well. -/
theorem I1_preserved (v l : memlink) (p : Option Nat) (n m es g : Nat)
    (mem : Mem) (s : istream) (hv : I1 v) (hl : I1 l) :
    I1 (memlink.mkNull es) ∧ I1 (memlink.mkConst p n es) ∧ I1 (memlink.mkMut p n es) ∧
    I1 (memlink.ofC l.base es) ∧ I1 (memlink.ofM l) ∧
    I1 (memlink.assignC v l.base) ∧ I1 (memlink.assignM v l) ∧
    I1 (v.link p n) ∧ I1 v.unlink ∧
    I1 (memlink.swap v l).1 ∧ I1 (memlink.swap v l).2 ∧
    (∀ v' mem' s', memlink.read v mem s n g = some (v', mem', s') → I1 v') ∧
    I1 (memlink.copy v mem m p n).1 ∧
    (∀ r, memlink.fill v mem m p es n = some r → I1 r.1) ∧
    (∀ r, memlink.insert v mem m n = some r → I1 r.1) ∧
    (∀ r, memlink.erase v mem m n = some r → I1 r.1) := by
  refine ⟨Or.inl rfl, Or.inl rfl, Or.inr rfl, Or.inl rfl, hl, Or.inl rfl, hl,
          Or.inr rfl, Or.inl rfl, hl, hv, ?_, ?_, ?_, ?_, ?_⟩
  · intro v' mem' s' h
    unfold memlink.read at h
    rcases Option.map_eq_some'.mp h with ⟨r, _, hr⟩
    have hv' : v' = ⟨⟨v.base.m_CData, min n v.base.m_Size⟩, v.m_Data, v.elemSize⟩ :=
      congrArg Prod.fst hr.symm
    rw [hv']
    rcases hv with h' | h'
    · exact Or.inl h'
    · exact Or.inr h'
  · rw [copy_fst]
    exact hv
  · intro r h
    rw [fill_fst v mem m p es n r h]
    exact hv
  · intro r h
    rw [insert_fst v mem m n r h]
    exact hv
  · intro r h
    rw [erase_fst v mem m n r h]
    exact hv

/-- Witness for C8 at concrete views `vMut8` and `vNull8`. -/
theorem I1_preserved_witness : I1 (memlink.mkNull 1) :=
  (I1_preserved vMut8 vNull8 (some 3) 5 2 1 4 memId s0 (by decide) (by decide)).1

end Ustl
